import Mathlib

/-!
Verification development for the Anthropic-to-OpenAI translation proxy
(`server/routers/proxy.py`).

The Python source is shallowly embedded: pure translation helpers become Lean
functions; the streaming SSE transcoder (`_stream_anthropic_sse`) becomes an
explicit state-passing loop over a list of backend chunks; the route handlers
become functions over an explicit environment capturing their collaborators
(the `litellm` client, the settings registry, the request parser).  Python
truthiness checks (`if system`, `if finish_reason`, `or` defaulting) are
translated explicitly.  Nondeterministic uuid-based identifiers are modelled
by fixed placeholder strings; no claim depends on their value.
-/

namespace Proxy

/-! ## A small JSON value model (for `json.dumps` on tool inputs) -/

/-- JSON values as stored in tool-call `input` fields.  Models the Python
objects that `json.dumps` is applied to. -/
inductive JValue where
  | str (s : String)
  | num (n : Int)
  | bool (b : Bool)
  | null
  | arr (xs : List JValue)
  | obj (fields : List (String × JValue))

/-- Escape one character as Python's `json.dumps` does for the characters that
matter here (quote, backslash, the common control characters). -/
def escapeChar (c : Char) : String :=
  if c = '"' then "\\\""
  else if c = '\\' then "\\\\"
  else if c = '\n' then "\\n"
  else if c = '\t' then "\\t"
  else if c = '\r' then "\\r"
  else String.singleton c

/-- String escaping in the style of `json.dumps`. -/
def escapeString (s : String) : String :=
  String.join (s.data.map escapeChar)

mutual

/-- Model of Python `json.dumps` with its default separators
(elements joined by a comma and a space, keys and values by a colon and a
space). -/
def dumps : JValue → String
  | .str s => "\"" ++ escapeString s ++ "\""
  | .num n => toString n
  | .bool b => if b then "true" else "false"
  | .null => "null"
  | .arr xs => "[" ++ dumpsList xs ++ "]"
  | .obj fs => "\x7b" ++ dumpsObj fs ++ "\x7d"

/-- Comma-and-space separated serialization of a JSON array's elements. -/
def dumpsList : List JValue → String
  | [] => ""
  | [x] => dumps x
  | x :: y :: rest => dumps x ++ ", " ++ dumpsList (y :: rest)

/-- Comma-and-space separated serialization of a JSON object's fields. -/
def dumpsObj : List (String × JValue) → String
  | [] => ""
  | [(k, v)] => "\"" ++ escapeString k ++ "\": " ++ dumps v
  | (k, v) :: p :: rest =>
      "\"" ++ escapeString k ++ "\": " ++ dumps v ++ ", " ++ dumpsObj (p :: rest)

end

/-! ## System prompt translation (`_translate_system_prompt`) -/

/-- One element of a list-shaped `system` field: a dict whose `type` is
`"text"` (carrying its `text` value), a plain string element, or a dict of any
other type (which may still carry a `text` value — relevant to the token
estimator, which reads `text` regardless of `type`). -/
inductive SysBlock where
  | textBlock (t : String)
  | strElem (s : String)
  | otherDict (t : String)
deriving Repr, DecidableEq

/-- The inbound `system` field: a plain string or a list of blocks. -/
inductive SystemField where
  | plain (s : String)
  | blocks (bs : List SysBlock)
deriving Repr, DecidableEq

/-- Embedding of `_translate_system_prompt`: string passthrough; for a list,
collect the `text` of every dict block typed `"text"` and every plain string
element, joined by newline. -/
def _translate_system_prompt : SystemField → String
  | .plain s => s
  | .blocks bs =>
      String.intercalate "\n" (bs.filterMap fun b =>
        match b with
        | .textBlock t => some t
        | .strElem s => some s
        | .otherDict _ => none)

/-- Python truthiness of the `system` value (`if system else ""`):
the empty string and the empty list are falsy. -/
def systemTruthy : SystemField → Bool
  | .plain s => !(s = "")
  | .blocks bs => !(bs = [])

/-! ## Message translation (`_translate_messages_to_openai`) -/

/-- The `content` of a `tool_result` block: a string, a list of result blocks
(dicts typed `"text"`, plain strings, or other elements), or a non-string
non-list value whose Python `str()` coercion is recorded. -/
inductive ResultBlock where
  | textBlock (t : String)
  | strElem (s : String)
  | otherElem
deriving Repr, DecidableEq

inductive ResultContent where
  | str (s : String)
  | blocks (bs : List ResultBlock)
  | otherCoerced (s : String)
deriving Repr, DecidableEq

/-- Content blocks of an inbound message.  `otherDict` is a dict with an
unrecognized `type` (skipped by the translator, counted by the token
estimator); `otherRaw` is a non-dict list element (skipped by both). -/
inductive ContentBlock where
  | text (t : String)
  | tool_use (id : String) (name : String) (input : JValue)
  | tool_result (tool_use_id : String) (content : ResultContent)
  | otherDict
  | otherRaw

/-- An inbound message's `content`: a plain string or a list of blocks. -/
inductive MsgContent where
  | str (s : String)
  | blocks (bs : List ContentBlock)

structure InMessage where
  role : String
  content : MsgContent

/-- An OpenAI-format tool call entry produced for a `tool_use` block. -/
structure OAIToolCall where
  id : String
  name : String
  arguments : String
deriving Repr, DecidableEq

/-- An OpenAI-format chat message as built by the translator.  `content` is
`none` exactly where the Python code stores `None`; `tool_calls` is empty when
the key is absent; `tool_call_id` is `some` only on tool-role messages. -/
structure OAIMessage where
  role : String
  content : Option String
  tool_calls : List OAIToolCall
  tool_call_id : Option String
deriving Repr, DecidableEq

/-- Plain-content message constructor (no tool calls, no tool_call_id). -/
def OAIMessage.plain (role : String) (content : String) : OAIMessage :=
  ⟨role, some content, [], none⟩

/-- Flattening of a `tool_result` block's `content` value, per the source:
a string passes through; a list is reduced to the newline-join of its
text-typed dict blocks and plain string elements; anything else is `str()`
coerced. -/
def flattenResultContent : ResultContent → String
  | .str s => s
  | .blocks bs =>
      String.intercalate "\n" (bs.filterMap fun rc =>
        match rc with
        | .textBlock t => some t
        | .strElem s => some s
        | .otherElem => none)
  | .otherCoerced s => s

/-- The single pass over a message's block list, building the three lists
`text_parts`, `tool_calls`, `tool_results` exactly as the source loop does. -/
structure PartitionedBlocks where
  text_parts : List String
  tool_calls : List OAIToolCall
  tool_results : List OAIMessage
deriving Repr, DecidableEq

/-- Placeholder for `f"call_{uuid.uuid4().hex[:8]}"`. -/
def generatedCallId : String := "call_generated"

def partitionBlocks : List ContentBlock → PartitionedBlocks
  | [] => ⟨[], [], []⟩
  | b :: rest =>
    let p := partitionBlocks rest
    match b with
    | .text t => ⟨t :: p.text_parts, p.tool_calls, p.tool_results⟩
    | .tool_use id name input =>
        let theId := if id = "" then generatedCallId else id
        ⟨p.text_parts, ⟨theId, name, dumps input⟩ :: p.tool_calls, p.tool_results⟩
    | .tool_result tuid rc =>
        ⟨p.text_parts, p.tool_calls,
         ⟨"tool", some (flattenResultContent rc), [], some tuid⟩ :: p.tool_results⟩
    | .otherDict => p
    | .otherRaw => p

/-- Translation of one inbound message into the backend messages it expands
to, following the dispatch at the end of the source loop body. -/
def translateOneMessage (msg : InMessage) : List OAIMessage :=
  match msg.content with
  | .str s => [OAIMessage.plain msg.role s]
  | .blocks bs =>
    let p := partitionBlocks bs
    if msg.role = "assistant" ∧ p.tool_calls ≠ [] then
      [⟨"assistant",
        (if p.text_parts ≠ [] then some (String.intercalate "\n" p.text_parts) else none),
        p.tool_calls, none⟩]
    else if p.tool_results ≠ [] then
      (if p.text_parts ≠ []
       then [OAIMessage.plain msg.role (String.intercalate "\n" p.text_parts)]
       else [])
      ++ p.tool_results
    else if p.text_parts ≠ [] then
      [OAIMessage.plain msg.role (String.intercalate "\n" p.text_parts)]
    else
      [OAIMessage.plain msg.role ""]

/-- Embedding of `_translate_messages_to_openai`: the loop appends each
message's expansion to one output list. -/
def _translate_messages_to_openai (messages : List InMessage) : List OAIMessage :=
  (messages.map translateOneMessage).flatten

/-! ## Tools and sampling parameters -/

structure ToolDef where
  name : String
  description : String
  input_schema : JValue

structure OAITool where
  name : String
  description : String
  parameters : JValue

/-- Embedding of `_translate_tools_to_openai`: `None` (or an empty list,
which is falsy) yields `None`; otherwise each tool is wrapped in the
function envelope. -/
def _translate_tools_to_openai : Option (List ToolDef) → Option (List OAITool)
  | none => none
  | some ts =>
      if ts.isEmpty then none
      else some (ts.map fun t => ⟨t.name, t.description, t.input_schema⟩)

/-- Python truthiness of the translated tools (`if oai_tools`). -/
def toolsTruthy : Option (List OAITool) → Bool
  | none => false
  | some l => !l.isEmpty

/-- The temperature actually sent to the backend (lines 589–594 of the
source): the inbound value (defaulting to 1.0 when absent), clamped to 0.6
when translated tools are present and the value exceeds 0.6. -/
def backendTemperature (tools : Option (List ToolDef)) (temperature : Option ℚ) : ℚ :=
  let temp := temperature.getD 1
  if toolsTruthy (_translate_tools_to_openai tools) ∧ temp > 0.6 then 0.6 else temp

/-! ## Finish reason mapping (`_translate_finish_reason`) -/

def _translate_finish_reason (reason : Option String) : String :=
  let r := reason.getD ""
  if r = "stop" then "end_turn"
  else if r = "length" then "max_tokens"
  else if r = "tool_calls" then "tool_use"
  else if r = "content_filter" then "end_turn"
  else "end_turn"

/-! ## Token estimator (`_count_tokens_estimate`) -/

/-- A request body as read by the token estimator. -/
structure Body where
  system : Option SystemField
  messages : List InMessage

/-- Character contribution of one system block in the estimator: any dict
contributes `len(block.get("text", ""))`; a plain string element is not a
dict and contributes nothing. -/
def sysBlockChars : SysBlock → Nat
  | .textBlock t => t.length
  | .strElem _ => 0
  | .otherDict t => t.length

/-- Character contribution of one message content block in the estimator:
any dict contributes `len(block.get("text", "")) + len(json.dumps(block.get("input", "")))`
(the missing-`input` default is the empty Python string, whose serialization
is the two-character `""`); a non-dict element contributes nothing. -/
def msgBlockChars : ContentBlock → Nat
  | .text t => t.length + (dumps (.str "")).length
  | .tool_use _ _ input => (dumps input).length
  | .tool_result _ _ => (dumps (.str "")).length
  | .otherDict => (dumps (.str "")).length
  | .otherRaw => 0

/-- Embedding of `_count_tokens_estimate`. -/
def _count_tokens_estimate (body : Body) : Nat :=
  let sysChars :=
    match body.system with
    | none => 0
    | some (.plain s) => s.length
    | some (.blocks bs) => (bs.map sysBlockChars).sum
  let msgChars :=
    (body.messages.map fun m =>
      match m.content with
      | .str s => s.length
      | .blocks bs => (bs.map msgBlockChars).sum).sum
  Nat.max 1 ((sysChars + msgChars) / 4)


/-! ## Streaming transcoder (`_stream_anthropic_sse`) -/

/-- The `content_block` payload of a `content_block_start` event: an empty
text block, or a tool_use block with its id and name and empty input. -/
inductive ContentBlockInit where
  | text
  | tool_use (id : String) (name : String)
deriving Repr, DecidableEq

/-- The `delta` payload of a `content_block_delta` event. -/
inductive DeltaPayload where
  | text_delta (s : String)
  | input_json_delta (fragment : String)
deriving Repr, DecidableEq

/-- The Anthropic SSE event vocabulary used by the streaming protocol.  The
`error` constructor is part of the protocol's event vocabulary; the transcoder
never emits it (one of the properties proved below).  Payload fields that no
claim depends on (message id, model name) are omitted. -/
inductive SSEEvent where
  | message_start
  | ping
  | content_block_start (index : Nat) (block : ContentBlockInit)
  | content_block_delta (index : Nat) (delta : DeltaPayload)
  | content_block_stop (index : Nat)
  | message_delta (stop_reason : String) (output_tokens : Nat)
  | message_stop
  | error (message : String)
deriving Repr, DecidableEq

/-- One entry of `delta.tool_calls` in a backend chunk: the backend tool-call
index plus optional id, name and argument fragment (absent attributes are
`none`; Python treats the empty string like an absent value at each use
site, which the transcoder functions below reproduce). -/
structure ToolCallFragment where
  index : Nat
  id : Option String
  name : Option String
  arguments : Option String
deriving Repr, DecidableEq

/-- The first (and only used) choice of a backend chunk. -/
structure ChunkChoice where
  content : Option String
  tool_calls : List ToolCallFragment
  finish_reason : Option String
deriving Repr, DecidableEq

/-- A backend streaming chunk; the transcoder skips chunks with an empty
`choices` list and otherwise reads `choices[0]`. -/
structure BackendChunk where
  choices : List ChunkChoice
deriving Repr, DecidableEq

/-- The per-index accumulator for one tool call
(`tool_call_accumulators[tc_idx]`). -/
structure ToolAccumulator where
  id : String
  name : String
  arguments : String
  block_index : Nat
deriving Repr, DecidableEq

/-- The kind of the currently open content block. -/
inductive BlockKind where
  | text
  | tool_use
deriving Repr, DecidableEq

/-- The transcoder's mutable state across the chunk loop. -/
structure StreamState where
  output_tokens : Nat
  block_index : Nat
  current_block_type : Option BlockKind
  accumulators : List (Nat × ToolAccumulator)
deriving Repr, DecidableEq

def initState : StreamState := ⟨0, 0, none, []⟩

/-- Dictionary lookup `tool_call_accumulators.get(k)`. -/
def lookupAcc (accs : List (Nat × ToolAccumulator)) (k : Nat) : Option ToolAccumulator :=
  match accs with
  | [] => none
  | (k0, a) :: rest => if k = k0 then some a else lookupAcc rest k

/-- Dictionary update `tool_call_accumulators[k] = a` (replace or append). -/
def setAcc (accs : List (Nat × ToolAccumulator)) (k : Nat) (a : ToolAccumulator) :
    List (Nat × ToolAccumulator) :=
  match accs with
  | [] => [(k, a)]
  | (k0, a0) :: rest =>
      if k = k0 then (k0, a) :: rest else (k0, a0) :: setAcc rest k a

/-- Placeholder for the generated tool id `f"toolu_{uuid.uuid4().hex[:12]}"`. -/
def generatedToolId : String := "toolu_generated"

/-- The text-delta branch of the chunk loop (`if delta and
getattr(delta, "content", None)`): a `none` or empty text fragment is falsy
and skipped; otherwise, when no text block is open, any open block is closed
(advancing the block index) and a new text block started; then the fragment
is emitted and the rough output-token counter incremented. -/
def handleText (st : StreamState) (content : Option String) :
    StreamState × List SSEEvent :=
  match content with
  | none => (st, [])
  | some s =>
    if s = "" then (st, [])
    else if st.current_block_type ≠ some BlockKind.text then
      let (st1, evs1) :=
        match st.current_block_type with
        | some _ => ({ st with block_index := st.block_index + 1 },
                     [SSEEvent.content_block_stop st.block_index])
        | none => (st, [])
      ({ st1 with current_block_type := some BlockKind.text,
                  output_tokens := st1.output_tokens + 1 },
       evs1 ++ [SSEEvent.content_block_start st1.block_index ContentBlockInit.text,
                SSEEvent.content_block_delta st1.block_index (DeltaPayload.text_delta s)])
    else
      ({ st with output_tokens := st.output_tokens + 1 },
       [SSEEvent.content_block_delta st.block_index (DeltaPayload.text_delta s)])

/-- The tool id captured at registration: the fragment id when present and
non-empty, the generated placeholder otherwise. -/
def fragToolId (f : ToolCallFragment) : String :=
  match f.id with
  | some i => if i = "" then generatedToolId else i
  | none => generatedToolId

/-- Registration of a first-seen backend tool-call index (`if tc_idx not in
tool_call_accumulators`): close any open block, create the accumulator at the
current block index, and emit the tool_use block start. -/
def registerFragment (st : StreamState) (f : ToolCallFragment) :
    StreamState × List SSEEvent :=
  match lookupAcc st.accumulators f.index with
  | some _ => (st, [])
  | none =>
    let (st1, evs1) :=
      match st.current_block_type with
      | some _ => ({ st with block_index := st.block_index + 1 },
                   [SSEEvent.content_block_stop st.block_index])
      | none => (st, [])
    ({ st1 with
        accumulators := setAcc st1.accumulators f.index
          ⟨fragToolId f, f.name.getD "", "", st1.block_index⟩,
        current_block_type := some BlockKind.tool_use },
     evs1 ++ [SSEEvent.content_block_start st1.block_index
                (ContentBlockInit.tool_use (fragToolId f) (f.name.getD ""))])

/-- The accumulate phase run for every fragment: adopt a non-empty name,
append a non-empty argument fragment to the accumulator, and emit the
input-delta event tagged with the accumulator's block index. -/
def accumulateFragment (st : StreamState) (f : ToolCallFragment) :
    StreamState × List SSEEvent :=
  match lookupAcc st.accumulators f.index with
  | none => (st, [])
  | some acc =>
    let acc1 :=
      match f.name with
      | some n => if n = "" then acc else { acc with name := n }
      | none => acc
    let arg := (f.arguments.getD "")
    if arg = "" then
      ({ st with accumulators := setAcc st.accumulators f.index acc1 }, [])
    else
      ({ st with accumulators :=
           setAcc st.accumulators f.index { acc1 with arguments := acc1.arguments ++ arg } },
       [SSEEvent.content_block_delta acc.block_index (DeltaPayload.input_json_delta arg)])

/-- Processing of one `tc_delta` entry: registration (if the backend index is
new) followed by the accumulate phase. -/
def handleFragment (st : StreamState) (f : ToolCallFragment) :
    StreamState × List SSEEvent :=
  let (st1, evs1) := registerFragment st f
  let (st2, evs2) := accumulateFragment st1 f
  (st2, evs1 ++ evs2)

/-- The `for tc_delta in delta.tool_calls` loop. -/
def handleFragments (st : StreamState) : List ToolCallFragment →
    StreamState × List SSEEvent
  | [] => (st, [])
  | f :: fs =>
    let (st1, evs1) := handleFragment st f
    let (st2, evs2) := handleFragments st1 fs
    (st2, evs1 ++ evs2)

/-- The events closing out the stream on the finish branch: close the open
block (without advancing the index), then the terminal delta/stop pair. -/
def finishEvents (st : StreamState) (finish_reason : String) : List SSEEvent :=
  (match st.current_block_type with
   | some _ => [SSEEvent.content_block_stop st.block_index]
   | none => []) ++
  [SSEEvent.message_delta (_translate_finish_reason (some finish_reason)) st.output_tokens,
   SSEEvent.message_stop]

/-- One iteration of the chunk loop.  Returns the new state, the events
yielded, and whether the generator returned (a truthy finish reason). -/
def processChunk (st : StreamState) (c : BackendChunk) :
    StreamState × List SSEEvent × Bool :=
  match c.choices with
  | [] => (st, [], false)
  | ch :: _ =>
    let (st1, evs1) := handleText st ch.content
    let (st2, evs2) := handleFragments st1 ch.tool_calls
    match ch.finish_reason with
    | none => (st2, evs1 ++ evs2, false)
    | some fr =>
      if fr = "" then (st2, evs1 ++ evs2, false)
      else (st2, evs1 ++ evs2 ++ finishEvents st2 fr, true)

/-- The chunk loop: consume chunks in order until one triggers the finish
return; chunks after the finish are never consumed. -/
def runChunks (st : StreamState) : List BackendChunk →
    StreamState × List SSEEvent × Bool
  | [] => (st, [], false)
  | c :: rest =>
    let (st1, evs1, done) := processChunk st c
    if done then (st1, evs1, true)
    else
      let (st2, evs2, d2) := runChunks st1 rest
      (st2, evs1 ++ evs2, d2)

/-- The `except Exception` path (lines 494–507): close the open block, then
emit the terminal pair with stop reason `end_turn`. -/
def faultTail (st : StreamState) : List SSEEvent :=
  (match st.current_block_type with
   | some _ => [SSEEvent.content_block_stop st.block_index]
   | none => []) ++
  [SSEEvent.message_delta "end_turn" st.output_tokens, SSEEvent.message_stop]

/-- The graceful-end path for a stream exhausted without a finish reason
(lines 509–520): textually identical event output to the fault path. -/
def gracefulTail (st : StreamState) : List SSEEvent :=
  (match st.current_block_type with
   | some _ => [SSEEvent.content_block_stop st.block_index]
   | none => []) ++
  [SSEEvent.message_delta "end_turn" st.output_tokens, SSEEvent.message_stop]

/-- Embedding of the whole generator `_stream_anthropic_sse`.  The backend
stream is a list of delivered chunks plus a flag telling whether the iterator
then raised a fault (`true`) or ended normally (`false`); a fault interrupting
the stream earlier is the same as a fault after the chunks delivered up to
that point.  If a truthy finish reason was processed the generator returned
inside the loop and no tail runs.  On a fault the except handler emits its
closing events and — having no `return` — falls through to the post-loop
closing code, which repeats them on the unchanged state, so the fault path
yields `faultTail st ++ gracefulTail st`. -/
def _stream_anthropic_sse (chunks : List BackendChunk) (fault : Bool) : List SSEEvent :=
  match runChunks initState chunks with
  | (st, evs, done) =>
    if done then SSEEvent.message_start :: SSEEvent.ping :: evs
    else SSEEvent.message_start :: SSEEvent.ping ::
          (evs ++ (if fault then faultTail st ++ gracefulTail st else gracefulTail st))

/-- A chunk carrying only a text fragment. -/
def textChunk (s : String) : BackendChunk := ⟨[⟨some s, [], none⟩]⟩

/-- A chunk carrying only a finish reason. -/
def finishChunk (r : String) : BackendChunk := ⟨[⟨none, [], some r⟩]⟩

/-- A chunk carrying a single tool-call fragment. -/
def toolChunk (idx : Nat) (id name args : Option String) : BackendChunk :=
  ⟨[⟨none, [⟨idx, id, name, args⟩], none⟩]⟩


/-! ## Route handlers (`proxy_messages`, `proxy_count_tokens`)

The handlers are embedded as functions over an explicit environment capturing
their external collaborators: whether the `litellm` import succeeded, the
outcome of parsing the request body, the settings registry, the provider
table, and the outcome of the single `litellm.acompletion` call (either the
exception text it raised, or — keyed by the stream flag — the chunk stream or
the completed response it returned). -/

/-- The compatibility preamble `_COMPAT_PREAMBLE` (lines 44–55). -/
def _COMPAT_PREAMBLE : String :=
  "You are a capable AI coding assistant. " ++
  "You have access to tools such as Bash (for running shell commands), " ++
  "Read/Write/Edit (for file operations), and various MCP tools. " ++
  "IMPORTANT: Always complete the requested task by calling the available tools " ++
  "directly. Do NOT ask for clarification or additional information – proceed " ++
  "immediately using the tools provided. " ++
  "If a task requires reading a file, call the Read tool. " ++
  "If a task requires running a command, call the Bash tool. " ++
  "If a task requires creating features, call the MCP feature tools. " ++
  "Think step-by-step and use tools to accomplish every goal.\n\n"

/-- The system-message content built at lines 576–578: the preamble followed
by the translated system text, the latter empty when the `system` field is
absent or falsy. -/
def systemMessageContent (system : Option SystemField) : String :=
  let system_text :=
    match system with
    | none => ""
    | some s => if systemTruthy s then _translate_system_prompt s else ""
  _COMPAT_PREAMBLE ++ system_text

/-- Helper scanning a character list for an occurrence of `needle`. -/
def strSubAux (needle : List Char) : List Char → Bool
  | [] => needle.isEmpty
  | c :: rest => needle.isPrefixOf (c :: rest) || strSubAux needle rest

/-- Substring test embedding Python's `needle in haystack` on strings. -/
def containsSub (haystack needle : String) : Bool :=
  strSubAux needle.data haystack.data

/-- A parsed request body, with the fields the handler reads. -/
structure RequestBody where
  model : Option String
  system : Option SystemField
  messages : List InMessage
  tools : Option (List ToolDef)
  max_tokens : Option Nat
  temperature : Option ℚ
  stream : Bool

/-- Outcome of `await request.json()`. -/
inductive ParsedBody where
  | ok (body : RequestBody)
  | malformed

/-- The settings registry (`get_all_settings()`), with Python `dict.get`
absence modelled as `none`. -/
structure Settings where
  api_provider : Option String
  api_base_url : Option String
  api_auth_token : Option String
  api_model : Option String

/-- One provider entry of `API_PROVIDERS`. -/
structure ProviderInfo where
  base_url : String
  default_model : String

/-- Lookup in the provider table (`API_PROVIDERS.get(provider_id)`). -/
def lookupProvider (providers : List (String × ProviderInfo)) (id : String) :
    Option ProviderInfo :=
  match providers with
  | [] => none
  | (k, p) :: rest => if id = k then some p else lookupProvider rest id

/-- The backend's complete (non-streaming) response, left abstract: the
non-streaming translation path is outside the claims checked here. -/
structure OAIResponse where
  tag : Nat
deriving Repr

/-- The handler's observable reply. -/
inductive HandlerResponse where
  | jsonError (status : Nat) (errType : String) (message : String)
  | sse (events : List SSEEvent)
  | nonStreamJson (response : OAIResponse) (model : String)
  | tokenCount (input_tokens : Nat)
deriving Repr

/-- The environment of one `proxy_messages` invocation. -/
structure Env where
  litellmAvailable : Bool
  parsed : ParsedBody
  settings : Settings
  providers : List (String × ProviderInfo)
  /-- `some e` when `litellm.acompletion` raised with text `str(e) = e`. -/
  callFault : Option String
  /-- The chunk sequence delivered when a streaming call succeeded, plus
  whether the backend stream then raised mid-stream. -/
  streamChunks : List BackendChunk
  streamRaises : Bool
  /-- The response object when a non-streaming call succeeded. -/
  completion : OAIResponse

/-- Python `a or b` for an optional string with a string fallback. -/
def orDefault (a : Option String) (b : String) : String :=
  match a with
  | none => b
  | some s => if s = "" then b else s

/-- Embedding of the `proxy_messages` handler (lines 527–660), up to its
observable reply.  The request-building steps between the configuration
checks and the backend call are pure and cannot fail; they are reflected in
the reply only through the streaming/non-streaming branch. -/
def proxy_messages (env : Env) : HandlerResponse :=
  if !env.litellmAvailable then
    HandlerResponse.jsonError 501 "not_implemented"
      "litellm is not installed. Run: pip install litellm"
  else
    match env.parsed with
    | ParsedBody.malformed =>
        HandlerResponse.jsonError 400 "invalid_request" "Invalid JSON body"
    | ParsedBody.ok body =>
      let provider_id := env.settings.api_provider.getD "claude"
      match lookupProvider env.providers provider_id with
      | none =>
          HandlerResponse.jsonError 500 "configuration_error"
            ("Unknown provider: " ++ provider_id)
      | some provider =>
        let api_base := orDefault env.settings.api_base_url provider.base_url
        let model := orDefault body.model
                       (orDefault env.settings.api_model provider.default_model)
        if api_base = "" then
          HandlerResponse.jsonError 500 "configuration_error"
            "No API base URL configured for provider"
        else
          match env.callFault with
          | some e =>
            let error_msg :=
              if containsSub e "AuthenticationError" || containsSub e "401" then
                "Authentication failed with " ++ provider_id ++ ". Check your API key."
              else e
            HandlerResponse.jsonError 502 "proxy_error" error_msg
          | none =>
            if body.stream then
              HandlerResponse.sse (_stream_anthropic_sse env.streamChunks env.streamRaises)
            else
              HandlerResponse.nonStreamJson env.completion model

/-- The token estimator's view of a parsed request body. -/
def bodyForCount (b : RequestBody) : Body := ⟨b.system, b.messages⟩

/-- Embedding of the `proxy_count_tokens` handler (lines 663–675).  It reads
only the parse outcome; in particular it does not consult `litellm`. -/
def proxy_count_tokens (parsed : ParsedBody) : HandlerResponse :=
  match parsed with
  | ParsedBody.malformed =>
      HandlerResponse.jsonError 400 "invalid_request" "Invalid JSON body"
  | ParsedBody.ok body =>
      HandlerResponse.tokenCount (_count_tokens_estimate (bodyForCount body))


/-! ## Event-stream discipline predicates

The temporal properties claimed of the SSE stream are expressed as scans over
the emitted event list: a running set of already-started (resp.
already-stopped) block indices, or a running count of open blocks.  Each scan
is executable, so concrete streams can be checked by evaluation, and each
composes over list append, which drives the loop invariant below. -/

/-- Block indices started in `evs`, accumulated onto `s`. -/
def startedAfter (s : List Nat) : List SSEEvent → List Nat
  | [] => s
  | SSEEvent.content_block_start i _ :: rest => startedAfter (i :: s) rest
  | _ :: rest => startedAfter s rest

/-- Block indices stopped in `evs`, accumulated onto `s`. -/
def stoppedAfter (s : List Nat) : List SSEEvent → List Nat
  | [] => s
  | SSEEvent.content_block_stop i :: rest => stoppedAfter (i :: s) rest
  | _ :: rest => stoppedAfter s rest

/-- Scan check: every `content_block_delta` is tagged with an index whose
`content_block_start` has already been emitted. -/
def dasScan (s : List Nat) : List SSEEvent → Bool
  | [] => true
  | SSEEvent.content_block_start i _ :: rest => dasScan (i :: s) rest
  | SSEEvent.content_block_delta i _ :: rest => s.contains i && dasScan s rest
  | _ :: rest => dasScan s rest

/-- Scan check: every text delta is tagged with an index whose
`content_block_stop` has not yet been emitted. -/
def tbsScan (s : List Nat) : List SSEEvent → Bool
  | [] => true
  | SSEEvent.content_block_stop i :: rest => tbsScan (i :: s) rest
  | SSEEvent.content_block_delta i (DeltaPayload.text_delta _) :: rest =>
      !s.contains i && tbsScan s rest
  | _ :: rest => tbsScan s rest

/-- Scan check for claim C2 as stated: every `content_block_delta` (text or
input-json) is emitted after the start and before the stop of its index. -/
def deltaDisciplineScan (started stopped : List Nat) : List SSEEvent → Bool
  | [] => true
  | SSEEvent.content_block_start i _ :: rest => deltaDisciplineScan (i :: started) stopped rest
  | SSEEvent.content_block_stop i :: rest => deltaDisciplineScan started (i :: stopped) rest
  | SSEEvent.content_block_delta i _ :: rest =>
      started.contains i && !stopped.contains i && deltaDisciplineScan started stopped rest
  | _ :: rest => deltaDisciplineScan started stopped rest

/-- Open-block scan: `b` is the index of the currently open block, if any.
A content_block_start succeeds only when no previously started block is
missing its content_block_stop; a content_block_stop for the open index
closes it, and any other stop leaves the state unchanged.
`openIdxScan none evs = some _` states that no block ever starts while an
earlier started block is still unstopped. -/
def openIdxScan (b : Option Nat) : List SSEEvent → Option (Option Nat)
  | [] => some b
  | SSEEvent.content_block_start i _ :: rest =>
      (match b with
       | none => openIdxScan (some i) rest
       | some _ => none)
  | SSEEvent.content_block_stop i :: rest =>
      openIdxScan (if b = some i then none else b) rest
  | _ :: rest => openIdxScan b rest

/-- The indices of the `content_block_start` events, in emission order. -/
def startIndices (evs : List SSEEvent) : List Nat :=
  evs.filterMap fun e =>
    match e with
    | SSEEvent.content_block_start i _ => some i
    | _ => none

/-- Events the chunk loop may yield before a finish reason arrives. -/
def isLoopEvent : SSEEvent → Bool
  | SSEEvent.content_block_start _ _ => true
  | SSEEvent.content_block_delta _ _ => true
  | SSEEvent.content_block_stop _ => true
  | _ => false

theorem startedAfter_append (s : List Nat) (xs ys : List SSEEvent) :
    startedAfter s (xs ++ ys) = startedAfter (startedAfter s xs) ys := by
  induction xs generalizing s with
  | nil => rfl
  | cons e rest ih => cases e <;> simp [startedAfter, ih]

theorem stoppedAfter_append (s : List Nat) (xs ys : List SSEEvent) :
    stoppedAfter s (xs ++ ys) = stoppedAfter (stoppedAfter s xs) ys := by
  induction xs generalizing s with
  | nil => rfl
  | cons e rest ih => cases e <;> simp [stoppedAfter, ih]

theorem dasScan_append (s : List Nat) (xs ys : List SSEEvent) :
    dasScan s (xs ++ ys) = (dasScan s xs && dasScan (startedAfter s xs) ys) := by
  induction xs generalizing s with
  | nil => simp [dasScan, startedAfter]
  | cons e rest ih =>
    cases e <;> simp [dasScan, startedAfter, ih, Bool.and_assoc]

theorem tbsScan_append (s : List Nat) (xs ys : List SSEEvent) :
    tbsScan s (xs ++ ys) = (tbsScan s xs && tbsScan (stoppedAfter s xs) ys) := by
  induction xs generalizing s with
  | nil => simp [tbsScan, stoppedAfter]
  | cons e rest ih =>
    cases e with
    | content_block_delta i d =>
        cases d <;> simp [tbsScan, stoppedAfter, ih, Bool.and_assoc]
    | content_block_stop i => simp [tbsScan, stoppedAfter, ih]
    | _ => simp [tbsScan, stoppedAfter, ih]

theorem openIdxScan_append (b : Option Nat) (xs ys : List SSEEvent) :
    openIdxScan b (xs ++ ys) = (openIdxScan b xs).bind fun c => openIdxScan c ys := by
  induction xs generalizing b with
  | nil => simp [openIdxScan]
  | cons e rest ih =>
    cases e with
    | content_block_start i blk =>
      cases b with
      | none => simpa [openIdxScan] using ih (some i)
      | some j => simp [openIdxScan]
    | content_block_stop i => simpa [openIdxScan] using ih _
    | message_start => simpa [openIdxScan] using ih b
    | ping => simpa [openIdxScan] using ih b
    | content_block_delta i d => simpa [openIdxScan] using ih b
    | message_delta r n => simpa [openIdxScan] using ih b
    | message_stop => simpa [openIdxScan] using ih b
    | error m => simpa [openIdxScan] using ih b

theorem startIndices_append (xs ys : List SSEEvent) :
    startIndices (xs ++ ys) = startIndices xs ++ startIndices ys := by
  simp [startIndices, List.filterMap_append]

theorem contains_of_cons_self {s : List Nat} {x : Nat} :
    (x :: s).contains x = true :=
  List.elem_eq_true_of_mem (List.mem_cons_self x s)

theorem contains_cons_of_contains {s : List Nat} {x y : Nat}
    (h : s.contains x = true) : (y :: s).contains x = true :=
  List.elem_eq_true_of_mem (List.mem_cons_of_mem y (List.mem_of_elem_eq_true h))

theorem startedAfter_contains_mono {s : List Nat} {x : Nat}
    (h : s.contains x = true) (ys : List SSEEvent) :
    (startedAfter s ys).contains x = true := by
  induction ys generalizing s with
  | nil => exact h
  | cons e rest ih =>
    cases e <;> simp only [startedAfter] <;>
      first
        | exact ih h
        | exact ih (contains_cons_of_contains h)

theorem stoppedAfter_contains_mono {s : List Nat} {x : Nat}
    (h : s.contains x = true) (ys : List SSEEvent) :
    (stoppedAfter s ys).contains x = true := by
  induction ys generalizing s with
  | nil => exact h
  | cons e rest ih =>
    cases e <;> simp only [stoppedAfter] <;>
      first
        | exact ih h
        | exact ih (contains_cons_of_contains h)

theorem stop_mem_stoppedAfter {j : Nat} {s : List Nat} {evs : List SSEEvent}
    (h : SSEEvent.content_block_stop j ∈ evs) :
    (stoppedAfter s evs).contains j = true := by
  induction evs generalizing s with
  | nil => cases h
  | cons e rest ih =>
    rcases List.mem_cons.mp h with he | hrest
    · rw [← he]
      exact stoppedAfter_contains_mono contains_of_cons_self rest
    · cases e <;> simp only [stoppedAfter] <;> exact ih hrest

theorem lookupAcc_setAcc (accs : List (Nat × ToolAccumulator)) (k k1 : Nat)
    (a : ToolAccumulator) :
    lookupAcc (setAcc accs k a) k1 = if k1 = k then some a else lookupAcc accs k1 := by
  induction accs with
  | nil => simp [setAcc, lookupAcc]
  | cons p rest ih =>
    obtain ⟨k0, a0⟩ := p
    by_cases hk : k = k0
    · subst hk
      by_cases hk1 : k1 = k <;> simp [setAcc, lookupAcc, hk1]
    · by_cases hk1 : k1 = k0
      · subst hk1
        simp [setAcc, lookupAcc, hk, Ne.symm hk]
      · simp [setAcc, lookupAcc, hk, hk1, ih]


/-! ## The loop invariant -/

/-- The index of the currently open block, if any, according to the state. -/
def openState (st : StreamState) : Option Nat :=
  match st.current_block_type with
  | none => none
  | some _ => some st.block_index

/-- The index the next `content_block_start` would be tagged with. -/
def nextStartIndex (st : StreamState) : Nat :=
  match st.current_block_type with
  | none => st.block_index
  | some _ => st.block_index + 1

/-- The common shape of the three stream-closing paths: close the open block
(without advancing the index), then the terminal `message_delta` and
`message_stop` pair. -/
def closingTail (st : StreamState) (r : String) : List SSEEvent :=
  (match st.current_block_type with
   | some _ => [SSEEvent.content_block_stop st.block_index]
   | none => []) ++
  [SSEEvent.message_delta r st.output_tokens, SSEEvent.message_stop]

theorem finishEvents_eq_closingTail (st : StreamState) (fr : String) :
    finishEvents st fr = closingTail st (_translate_finish_reason (some fr)) := rfl

theorem faultTail_eq_closingTail (st : StreamState) :
    faultTail st = closingTail st "end_turn" := rfl

theorem gracefulTail_eq_closingTail (st : StreamState) :
    gracefulTail st = closingTail st "end_turn" := rfl

theorem contains_cons_elim {s : List Nat} {x y : Nat}
    (h : (y :: s).contains x = true) : x = y ∨ s.contains x = true := by
  rcases List.mem_cons.mp (List.mem_of_elem_eq_true h) with h1 | h1
  · exact Or.inl h1
  · exact Or.inr (List.elem_eq_true_of_mem h1)

theorem not_mem_of_contains_false {s : List Nat} {x : Nat}
    (h : s.contains x = false) : x ∉ s := by
  intro hmem
  have h2 : s.contains x = true := List.elem_eq_true_of_mem hmem
  rw [h] at h2
  cases h2

/-- The invariant tying the transcoder state to the block-lifecycle events
emitted so far by the chunk loop (excluding the initial message_start/ping
pair, which precedes the loop). -/
structure LoopInv (st : StreamState) (evs : List SSEEvent) : Prop where
  stops_lt : ∀ j, (stoppedAfter [] evs).contains j = true → j < st.block_index
  open_start : st.current_block_type ≠ none →
      (startedAfter [] evs).contains st.block_index = true
  acc_start : ∀ k a, lookupAcc st.accumulators k = some a →
      (startedAfter [] evs).contains a.block_index = true
  das : dasScan [] evs = true
  tbs : tbsScan [] evs = true
  loop_only : ∀ e ∈ evs, isLoopEvent e = true
  open_idx : openIdxScan none evs = some (openState st)
  starts_range : startIndices evs = List.range (nextStartIndex st)

theorem LoopInv_init : LoopInv initState [] := by
  refine ⟨?_, ?_, ?_, rfl, rfl, ?_, rfl, rfl⟩
  · intro j h; cases h
  · intro h; exact absurd rfl h
  · intro k a h; cases h
  · intro e he; cases he

/-! ### Characterization of `handleText` -/

theorem handleText_none (st : StreamState) : handleText st none = (st, []) := rfl

theorem handleText_empty (st : StreamState) : handleText st (some "") = (st, []) := rfl

theorem handleText_cont (st : StreamState) (s : String) (hs : ¬s = "")
    (hct : st.current_block_type = some BlockKind.text) :
    handleText st (some s) =
      ({ st with output_tokens := st.output_tokens + 1 },
       [SSEEvent.content_block_delta st.block_index (DeltaPayload.text_delta s)]) := by
  simp [handleText, hs, hct]

theorem handleText_open (st : StreamState) (s : String) (hs : ¬s = "")
    (hct : st.current_block_type = none) :
    handleText st (some s) =
      (⟨st.output_tokens + 1, st.block_index, some BlockKind.text, st.accumulators⟩,
       [SSEEvent.content_block_start st.block_index ContentBlockInit.text,
        SSEEvent.content_block_delta st.block_index (DeltaPayload.text_delta s)]) := by
  simp [handleText, hs, hct]

theorem handleText_switch (st : StreamState) (s : String) (hs : ¬s = "")
    (hct : st.current_block_type = some BlockKind.tool_use) :
    handleText st (some s) =
      (⟨st.output_tokens + 1, st.block_index + 1, some BlockKind.text, st.accumulators⟩,
       [SSEEvent.content_block_stop st.block_index,
        SSEEvent.content_block_start (st.block_index + 1) ContentBlockInit.text,
        SSEEvent.content_block_delta (st.block_index + 1) (DeltaPayload.text_delta s)]) := by
  simp [handleText, hs, hct]

/-! ### Invariant preservation through the loop steps -/

theorem LoopInv_handleText {st : StreamState} {evs : List SSEEvent}
    (inv : LoopInv st evs) (c : Option String) :
    LoopInv (handleText st c).1 (evs ++ (handleText st c).2) := by
  match c with
  | none => simpa [handleText_none] using inv
  | some s =>
    by_cases hs : s = ""
    · subst hs; simpa [handleText_empty] using inv
    · cases hct : st.current_block_type with
      | none =>
        rw [handleText_open st s hs hct]
        have hS : (startedAfter [] (evs ++
            [SSEEvent.content_block_start st.block_index ContentBlockInit.text,
             SSEEvent.content_block_delta st.block_index (DeltaPayload.text_delta s)])) =
            st.block_index :: startedAfter [] evs := by
          rw [startedAfter_append]; rfl
        refine ⟨?_, ?_, ?_, ?_, ?_, ?_, ?_, ?_⟩
        · intro j h
          rw [stoppedAfter_append] at h
          exact inv.stops_lt j h
        · intro _
          rw [hS]; exact contains_of_cons_self
        · intro k a h
          rw [hS]
          exact contains_cons_of_contains (inv.acc_start k a h)
        · rw [dasScan_append, inv.das]
          simp [dasScan]
        · have hnot : (stoppedAfter [] evs).contains st.block_index = false := by
            cases h : (stoppedAfter [] evs).contains st.block_index
            · rfl
            · exact absurd (inv.stops_lt _ h) (lt_irrefl _)
          rw [tbsScan_append, inv.tbs]
          simp [tbsScan, not_mem_of_contains_false hnot]
        · intro e he
          rcases List.mem_append.mp he with h | h
          · exact inv.loop_only e h
          · rcases List.mem_cons.mp h with h1 | h1
            · subst h1; rfl
            · rcases List.mem_cons.mp h1 with h2 | h2
              · subst h2; rfl
              · cases h2
        · rw [openIdxScan_append, inv.open_idx]
          simp [openIdxScan, openState, hct]
        · rw [startIndices_append, inv.starts_range]
          simp [startIndices, nextStartIndex, hct, List.range_succ]
      | some k =>
        cases k with
        | text =>
          rw [handleText_cont st s hs hct]
          have hS : (startedAfter [] (evs ++
              [SSEEvent.content_block_delta st.block_index (DeltaPayload.text_delta s)])) =
              startedAfter [] evs := by
            rw [startedAfter_append]; rfl
          have hopen : (startedAfter [] evs).contains st.block_index = true :=
            inv.open_start (by rw [hct]; exact Option.noConfusion)
          refine ⟨?_, ?_, ?_, ?_, ?_, ?_, ?_, ?_⟩
          · intro j h
            rw [stoppedAfter_append] at h
            exact inv.stops_lt j h
          · intro _; rw [hS]; exact hopen
          · intro k a h; rw [hS]; exact inv.acc_start k a h
          · rw [dasScan_append, inv.das]
            simp [dasScan, List.mem_of_elem_eq_true hopen]
          · have hnot : (stoppedAfter [] evs).contains st.block_index = false := by
              cases h : (stoppedAfter [] evs).contains st.block_index
              · rfl
              · exact absurd (inv.stops_lt _ h) (lt_irrefl _)
            rw [tbsScan_append, inv.tbs]
            simp [tbsScan, not_mem_of_contains_false hnot]
          · intro e he
            rcases List.mem_append.mp he with h | h
            · exact inv.loop_only e h
            · rcases List.mem_cons.mp h with h1 | h1
              · subst h1; rfl
              · cases h1
          · rw [openIdxScan_append, inv.open_idx]
            simp [openIdxScan, openState, hct]
          · rw [startIndices_append, inv.starts_range]
            simp [startIndices, nextStartIndex, hct]
        | tool_use =>
          rw [handleText_switch st s hs hct]
          have hS : (startedAfter [] (evs ++
              [SSEEvent.content_block_stop st.block_index,
               SSEEvent.content_block_start (st.block_index + 1) ContentBlockInit.text,
               SSEEvent.content_block_delta (st.block_index + 1) (DeltaPayload.text_delta s)])) =
              (st.block_index + 1) :: startedAfter [] evs := by
            rw [startedAfter_append]; rfl
          have hStp : (stoppedAfter [] (evs ++
              [SSEEvent.content_block_stop st.block_index,
               SSEEvent.content_block_start (st.block_index + 1) ContentBlockInit.text,
               SSEEvent.content_block_delta (st.block_index + 1) (DeltaPayload.text_delta s)])) =
              st.block_index :: stoppedAfter [] evs := by
            rw [stoppedAfter_append]; rfl
          refine ⟨?_, ?_, ?_, ?_, ?_, ?_, ?_, ?_⟩
          · intro j h
            rw [hStp] at h
            rcases contains_cons_elim h with h1 | h1
            · subst h1; exact Nat.lt_succ_self _
            · exact Nat.lt_succ_of_lt (inv.stops_lt j h1)
          · intro _
            rw [hS]; exact contains_of_cons_self
          · intro k a h
            rw [hS]
            exact contains_cons_of_contains (inv.acc_start k a h)
          · rw [dasScan_append, inv.das]
            simp [dasScan]
          · have hnot : (st.block_index :: stoppedAfter [] evs).contains
                (st.block_index + 1) = false := by
              cases h : (st.block_index :: stoppedAfter [] evs).contains (st.block_index + 1)
              · rfl
              · rcases contains_cons_elim h with h1 | h1
                · exact absurd h1 (Nat.succ_ne_self _)
                · exact absurd (inv.stops_lt _ h1)
                    (by intro hlt; exact absurd hlt (Nat.lt_asymm (Nat.lt_succ_self _)))
            rw [tbsScan_append, inv.tbs]
            simp only [Bool.true_and]
            simp [tbsScan, not_mem_of_contains_false hnot]
          · intro e he
            rcases List.mem_append.mp he with h | h
            · exact inv.loop_only e h
            · rcases List.mem_cons.mp h with h1 | h1
              · subst h1; rfl
              · rcases List.mem_cons.mp h1 with h2 | h2
                · subst h2; rfl
                · rcases List.mem_cons.mp h2 with h3 | h3
                  · subst h3; rfl
                  · cases h3
          · rw [openIdxScan_append, inv.open_idx]
            simp [openIdxScan, openState, hct]
          · rw [startIndices_append, inv.starts_range]
            simp [startIndices, nextStartIndex, hct, List.range_succ]


/-! ### Characterization of the tool-fragment steps -/

theorem registerFragment_known {st : StreamState} {f : ToolCallFragment} {a : ToolAccumulator}
    (h : lookupAcc st.accumulators f.index = some a) :
    registerFragment st f = (st, []) := by
  simp [registerFragment, h]

theorem registerFragment_new_open {st : StreamState} {f : ToolCallFragment}
    (h : lookupAcc st.accumulators f.index = none)
    (hct : st.current_block_type = none) :
    registerFragment st f =
      (⟨st.output_tokens, st.block_index, some BlockKind.tool_use,
        setAcc st.accumulators f.index ⟨fragToolId f, f.name.getD "", "", st.block_index⟩⟩,
       [SSEEvent.content_block_start st.block_index
          (ContentBlockInit.tool_use (fragToolId f) (f.name.getD ""))]) := by
  simp [registerFragment, h, hct]

theorem registerFragment_new_close {st : StreamState} {f : ToolCallFragment} {k : BlockKind}
    (h : lookupAcc st.accumulators f.index = none)
    (hct : st.current_block_type = some k) :
    registerFragment st f =
      (⟨st.output_tokens, st.block_index + 1, some BlockKind.tool_use,
        setAcc st.accumulators f.index
          ⟨fragToolId f, f.name.getD "", "", st.block_index + 1⟩⟩,
       [SSEEvent.content_block_stop st.block_index,
        SSEEvent.content_block_start (st.block_index + 1)
          (ContentBlockInit.tool_use (fragToolId f) (f.name.getD ""))]) := by
  simp [registerFragment, h, hct]

/-- The name-adoption update leaves the accumulator's block index unchanged. -/
theorem nameUpdate_block_index (acc : ToolAccumulator) (nm : Option String) :
    (match nm with
     | some n => if n = "" then acc else { acc with name := n }
     | none => acc).block_index = acc.block_index := by
  cases nm with
  | none => rfl
  | some n => by_cases h : n = "" <;> simp [h]

theorem LoopInv_registerFragment {st : StreamState} {evs : List SSEEvent}
    (inv : LoopInv st evs) (f : ToolCallFragment) :
    LoopInv (registerFragment st f).1 (evs ++ (registerFragment st f).2) := by
  cases hl : lookupAcc st.accumulators f.index with
  | some a => rw [registerFragment_known hl]; simpa using inv
  | none =>
    cases hct : st.current_block_type with
    | none =>
      rw [registerFragment_new_open hl hct]
      have hS : startedAfter [] (evs ++
          [SSEEvent.content_block_start st.block_index
             (ContentBlockInit.tool_use (fragToolId f) (f.name.getD ""))]) =
          st.block_index :: startedAfter [] evs := by
        rw [startedAfter_append]; rfl
      refine ⟨?_, ?_, ?_, ?_, ?_, ?_, ?_, ?_⟩
      · intro j h
        rw [stoppedAfter_append] at h
        exact inv.stops_lt j h
      · intro _; rw [hS]; exact contains_of_cons_self
      · intro k a h
        rw [hS]
        rw [lookupAcc_setAcc] at h
        by_cases hk : k = f.index
        · rw [if_pos hk] at h
          cases h
          exact contains_of_cons_self
        · rw [if_neg hk] at h
          exact contains_cons_of_contains (inv.acc_start k a h)
      · rw [dasScan_append, inv.das]
        simp [dasScan]
      · rw [tbsScan_append, inv.tbs]
        simp [tbsScan]
      · intro e he
        rcases List.mem_append.mp he with h | h
        · exact inv.loop_only e h
        · rcases List.mem_cons.mp h with h1 | h1
          · subst h1; rfl
          · cases h1
      · rw [openIdxScan_append, inv.open_idx]
        simp [openIdxScan, openState, hct]
      · rw [startIndices_append, inv.starts_range]
        simp [startIndices, nextStartIndex, hct, List.range_succ]
    | some k0 =>
      rw [registerFragment_new_close hl hct]
      have hS : startedAfter [] (evs ++
          [SSEEvent.content_block_stop st.block_index,
           SSEEvent.content_block_start (st.block_index + 1)
             (ContentBlockInit.tool_use (fragToolId f) (f.name.getD ""))]) =
          (st.block_index + 1) :: startedAfter [] evs := by
        rw [startedAfter_append]; rfl
      have hStp : stoppedAfter [] (evs ++
          [SSEEvent.content_block_stop st.block_index,
           SSEEvent.content_block_start (st.block_index + 1)
             (ContentBlockInit.tool_use (fragToolId f) (f.name.getD ""))]) =
          st.block_index :: stoppedAfter [] evs := by
        rw [stoppedAfter_append]; rfl
      refine ⟨?_, ?_, ?_, ?_, ?_, ?_, ?_, ?_⟩
      · intro j h
        rw [hStp] at h
        rcases contains_cons_elim h with h1 | h1
        · subst h1; exact Nat.lt_succ_self _
        · exact Nat.lt_succ_of_lt (inv.stops_lt j h1)
      · intro _; rw [hS]; exact contains_of_cons_self
      · intro k a h
        rw [hS]
        rw [lookupAcc_setAcc] at h
        by_cases hk : k = f.index
        · rw [if_pos hk] at h
          cases h
          exact contains_of_cons_self
        · rw [if_neg hk] at h
          exact contains_cons_of_contains (inv.acc_start k a h)
      · rw [dasScan_append, inv.das]
        simp [dasScan]
      · rw [tbsScan_append, inv.tbs]
        simp [tbsScan]
      · intro e he
        rcases List.mem_append.mp he with h | h
        · exact inv.loop_only e h
        · rcases List.mem_cons.mp h with h1 | h1
          · subst h1; rfl
          · rcases List.mem_cons.mp h1 with h2 | h2
            · subst h2; rfl
            · cases h2
      · rw [openIdxScan_append, inv.open_idx]
        simp [openIdxScan, openState, hct]
      · rw [startIndices_append, inv.starts_range]
        simp [startIndices, nextStartIndex, hct, List.range_succ]

theorem LoopInv_accumulateFragment {st : StreamState} {evs : List SSEEvent}
    (inv : LoopInv st evs) (f : ToolCallFragment) :
    LoopInv (accumulateFragment st f).1 (evs ++ (accumulateFragment st f).2) := by
  cases hl : lookupAcc st.accumulators f.index with
  | none => simp only [accumulateFragment, hl]; simpa using inv
  | some acc =>
    have hmem : (startedAfter [] evs).contains acc.block_index = true :=
      inv.acc_start f.index acc hl
    by_cases harg : f.arguments.getD "" = ""
    · simp only [accumulateFragment, hl, harg, if_pos]
      refine ⟨?_, ?_, ?_, ?_, ?_, ?_, ?_, ?_⟩
      · intro j h
        rw [stoppedAfter_append] at h
        exact inv.stops_lt j h
      · intro h
        rw [startedAfter_append]
        exact inv.open_start h
      · intro k a h
        rw [startedAfter_append]
        rw [lookupAcc_setAcc] at h
        by_cases hk : k = f.index
        · rw [if_pos hk] at h
          cases h
          rw [nameUpdate_block_index]
          exact hmem
        · rw [if_neg hk] at h
          exact inv.acc_start k a h
      · rw [dasScan_append, inv.das]
        simp [dasScan]
      · rw [tbsScan_append, inv.tbs]
        simp [tbsScan]
      · intro e he
        rcases List.mem_append.mp he with h | h
        · exact inv.loop_only e h
        · cases h
      · rw [openIdxScan_append, inv.open_idx]
        simp [openIdxScan, openState]
      · rw [startIndices_append, inv.starts_range]
        simp [startIndices, nextStartIndex]
    · simp only [accumulateFragment, hl, harg, if_neg, if_false]
      have hS : startedAfter [] (evs ++
          [SSEEvent.content_block_delta acc.block_index
             (DeltaPayload.input_json_delta (f.arguments.getD ""))]) =
          startedAfter [] evs := by
        rw [startedAfter_append]; rfl
      refine ⟨?_, ?_, ?_, ?_, ?_, ?_, ?_, ?_⟩
      · intro j h
        rw [stoppedAfter_append] at h
        exact inv.stops_lt j h
      · intro h
        rw [hS]
        exact inv.open_start h
      · intro k a h
        rw [hS]
        rw [lookupAcc_setAcc] at h
        by_cases hk : k = f.index
        · rw [if_pos hk] at h
          cases h
          simp only [nameUpdate_block_index]
          exact hmem
        · rw [if_neg hk] at h
          exact inv.acc_start k a h
      · rw [dasScan_append, inv.das]
        simp [dasScan, List.mem_of_elem_eq_true hmem]
      · rw [tbsScan_append, inv.tbs]
        simp [tbsScan]
      · intro e he
        rcases List.mem_append.mp he with h | h
        · exact inv.loop_only e h
        · rcases List.mem_cons.mp h with h1 | h1
          · subst h1; rfl
          · cases h1
      · rw [openIdxScan_append, inv.open_idx]
        simp [openIdxScan, openState]
      · rw [startIndices_append, inv.starts_range]
        simp [startIndices, nextStartIndex]

theorem LoopInv_handleFragment {st : StreamState} {evs : List SSEEvent}
    (inv : LoopInv st evs) (f : ToolCallFragment) :
    LoopInv (handleFragment st f).1 (evs ++ (handleFragment st f).2) := by
  have h1 := LoopInv_registerFragment inv f
  have h2 := LoopInv_accumulateFragment h1 f
  simpa [handleFragment, List.append_assoc] using h2

theorem LoopInv_handleFragments {st : StreamState} {evs : List SSEEvent}
    (inv : LoopInv st evs) (fs : List ToolCallFragment) :
    LoopInv (handleFragments st fs).1 (evs ++ (handleFragments st fs).2) := by
  induction fs generalizing st evs with
  | nil => simpa [handleFragments] using inv
  | cons f rest ih =>
    have h1 := LoopInv_handleFragment inv f
    have h2 := ih h1
    simpa [handleFragments, List.append_assoc] using h2


/-! ### Invariant preservation through the chunk loop -/

theorem processChunk_choice (st : StreamState) (c : BackendChunk) (ch : ChunkChoice)
    (rest : List ChunkChoice) (hc : c.choices = ch :: rest) :
    processChunk st c =
      (match ch.finish_reason with
       | none =>
         ((handleFragments (handleText st ch.content).1 ch.tool_calls).1,
          (handleText st ch.content).2 ++
            (handleFragments (handleText st ch.content).1 ch.tool_calls).2, false)
       | some fr =>
         if fr = "" then
           ((handleFragments (handleText st ch.content).1 ch.tool_calls).1,
            (handleText st ch.content).2 ++
              (handleFragments (handleText st ch.content).1 ch.tool_calls).2, false)
         else
           ((handleFragments (handleText st ch.content).1 ch.tool_calls).1,
            (handleText st ch.content).2 ++
              (handleFragments (handleText st ch.content).1 ch.tool_calls).2 ++
              finishEvents (handleFragments (handleText st ch.content).1 ch.tool_calls).1 fr,
            true)) := by
  simp only [processChunk, hc]

theorem LoopInv_processChunk_not_done {st : StreamState} {evs : List SSEEvent}
    {c : BackendChunk} (inv : LoopInv st evs) (h : (processChunk st c).2.2 = false) :
    LoopInv (processChunk st c).1 (evs ++ (processChunk st c).2.1) := by
  cases hc : c.choices with
  | nil => simp only [processChunk, hc]; simpa using inv
  | cons ch rest =>
    have h2 := LoopInv_handleFragments (LoopInv_handleText inv ch.content) ch.tool_calls
    rw [processChunk_choice st c ch rest hc] at h ⊢
    cases hfr : ch.finish_reason with
    | none => simpa [List.append_assoc] using h2
    | some fr =>
      rw [hfr] at h
      dsimp only at h ⊢
      by_cases hfr2 : fr = ""
      · rw [if_pos hfr2]; simpa [List.append_assoc] using h2
      · rw [if_neg hfr2] at h
        exact Bool.noConfusion h

theorem LoopInv_processChunk_done {st : StreamState} {evs : List SSEEvent}
    {c : BackendChunk} (inv : LoopInv st evs) (h : (processChunk st c).2.2 = true) :
    ∃ evsL r, (processChunk st c).2.1 = evsL ++ closingTail (processChunk st c).1 r ∧
      LoopInv (processChunk st c).1 (evs ++ evsL) := by
  cases hc : c.choices with
  | nil =>
    rw [show processChunk st c = (st, [], false) by simp [processChunk, hc]] at h
    exact Bool.noConfusion h
  | cons ch rest =>
    have h2 := LoopInv_handleFragments (LoopInv_handleText inv ch.content) ch.tool_calls
    rw [processChunk_choice st c ch rest hc] at h ⊢
    cases hfr : ch.finish_reason with
    | none =>
      rw [hfr] at h
      exact Bool.noConfusion h
    | some fr =>
      rw [hfr] at h
      dsimp only at h ⊢
      by_cases hfr2 : fr = ""
      · rw [if_pos hfr2] at h
        exact Bool.noConfusion h
      · rw [if_neg hfr2]
        refine ⟨(handleText st ch.content).2 ++
          (handleFragments (handleText st ch.content).1 ch.tool_calls).2,
          _translate_finish_reason (some fr), ?_, ?_⟩
        · rw [finishEvents_eq_closingTail]
        · simpa [List.append_assoc] using h2

theorem runChunks_cons (st : StreamState) (c : BackendChunk) (rest : List BackendChunk) :
    runChunks st (c :: rest) =
      (if (processChunk st c).2.2 then
        ((processChunk st c).1, (processChunk st c).2.1, true)
       else
        ((runChunks (processChunk st c).1 rest).1,
         (processChunk st c).2.1 ++ (runChunks (processChunk st c).1 rest).2.1,
         (runChunks (processChunk st c).1 rest).2.2)) := by
  show (match processChunk st c with
        | (st1, evs1, done) =>
          if done then (st1, evs1, true)
          else match runChunks st1 rest with
               | (st2, evs2, d2) => (st2, evs1 ++ evs2, d2)) = _
  rcases hp : processChunk st c with ⟨st1, evs1, done⟩
  cases done
  · rcases hr : runChunks st1 rest with ⟨st2, evs2, d2⟩
    simp [hr]
  · rfl

theorem LoopInv_runChunks_not_done {chunks : List BackendChunk} {st : StreamState}
    {evs : List SSEEvent} (inv : LoopInv st evs)
    (h : (runChunks st chunks).2.2 = false) :
    LoopInv (runChunks st chunks).1 (evs ++ (runChunks st chunks).2.1) := by
  induction chunks generalizing st evs with
  | nil => simpa [runChunks] using inv
  | cons c rest ih =>
    rw [runChunks_cons] at h ⊢
    cases hd : (processChunk st c).2.2 with
    | true => rw [hd, if_pos rfl] at h; exact Bool.noConfusion h
    | false =>
      rw [hd] at h
      rw [if_neg Bool.false_ne_true] at h ⊢
      have h2 := ih (LoopInv_processChunk_not_done inv hd) h
      simpa [List.append_assoc] using h2

theorem LoopInv_runChunks_done {chunks : List BackendChunk} {st : StreamState}
    {evs : List SSEEvent} (inv : LoopInv st evs)
    (h : (runChunks st chunks).2.2 = true) :
    ∃ evsL r, (runChunks st chunks).2.1 = evsL ++ closingTail (runChunks st chunks).1 r ∧
      LoopInv (runChunks st chunks).1 (evs ++ evsL) := by
  induction chunks generalizing st evs with
  | nil => rw [runChunks] at h; cases h
  | cons c rest ih =>
    rw [runChunks_cons] at h ⊢
    cases hd : (processChunk st c).2.2 with
    | true =>
      rw [if_pos rfl]
      exact LoopInv_processChunk_done inv hd
    | false =>
      rw [hd] at h
      rw [if_neg Bool.false_ne_true] at h ⊢
      obtain ⟨evsL, r, he, hinv⟩ := ih (LoopInv_processChunk_not_done inv hd) h
      refine ⟨(processChunk st c).2.1 ++ evsL, r, ?_, ?_⟩
      · rw [he, List.append_assoc]
      · rwa [← List.append_assoc]


/-! ### The closing tail and the assembled stream -/

theorem closingTail_open {st : StreamState} {k : BlockKind} (r : String)
    (h : st.current_block_type = some k) :
    closingTail st r =
      [SSEEvent.content_block_stop st.block_index,
       SSEEvent.message_delta r st.output_tokens, SSEEvent.message_stop] := by
  simp [closingTail, h]

theorem closingTail_dasScan (st : StreamState) (r : String) (S : List Nat) :
    dasScan S (closingTail st r) = true := by
  cases h : st.current_block_type <;> simp [closingTail, dasScan, h]

theorem closingTail_tbsScan (st : StreamState) (r : String) (S : List Nat) :
    tbsScan S (closingTail st r) = true := by
  cases h : st.current_block_type <;> simp [closingTail, tbsScan, h]

theorem closingTail_openIdx_open (st : StreamState) (r : String) :
    openIdxScan (openState st) (closingTail st r) = some none := by
  cases h : st.current_block_type <;> simp [closingTail, openIdxScan, openState, h]

theorem closingTail_openIdx_none (st : StreamState) (r : String) :
    openIdxScan none (closingTail st r) = some none := by
  cases h : st.current_block_type <;> simp [closingTail, openIdxScan, h]

theorem closingTail_startIndices (st : StreamState) (r : String) :
    startIndices (closingTail st r) = [] := by
  cases h : st.current_block_type <;> simp [closingTail, startIndices, h]

theorem closingTail_no_error (st : StreamState) (r msg : String) :
    SSEEvent.error msg ∉ closingTail st r := by
  cases h : st.current_block_type <;> simp [closingTail, h]

/-- The full generator output in terms of the loop run: the two handshake
events, the loop events, and — unless a finish reason already closed the
stream — the closing tail with stop reason `end_turn`, emitted twice on the
fault path (the except handler has no return and falls through to the
post-loop close) and once on the graceful path. -/
theorem stream_eq (chunks : List BackendChunk) (fault : Bool) :
    _stream_anthropic_sse chunks fault =
      SSEEvent.message_start :: SSEEvent.ping ::
        ((runChunks initState chunks).2.1 ++
         (if (runChunks initState chunks).2.2 then []
          else
            (if fault then closingTail (runChunks initState chunks).1 "end_turn"
             else []) ++
            closingTail (runChunks initState chunks).1 "end_turn")) := by
  show (match runChunks initState chunks with
        | (st, evs, done) =>
          if done then SSEEvent.message_start :: SSEEvent.ping :: evs
          else SSEEvent.message_start :: SSEEvent.ping ::
                (evs ++ (if fault then faultTail st ++ gracefulTail st
                         else gracefulTail st))) = _
  rcases h : runChunks initState chunks with ⟨st, evs, done⟩
  cases done
  · cases fault <;>
      simp [faultTail_eq_closingTail, gracefulTail_eq_closingTail]
  · simp

theorem stream_loopInv_not_done {chunks : List BackendChunk}
    (hd : (runChunks initState chunks).2.2 = false) :
    LoopInv (runChunks initState chunks).1 (runChunks initState chunks).2.1 := by
  have h := LoopInv_runChunks_not_done LoopInv_init hd
  simpa using h

theorem stream_loopInv_done {chunks : List BackendChunk}
    (hd : (runChunks initState chunks).2.2 = true) :
    ∃ evsL r, (runChunks initState chunks).2.1 =
        evsL ++ closingTail (runChunks initState chunks).1 r ∧
      LoopInv (runChunks initState chunks).1 evsL := by
  obtain ⟨evsL, r, he, hinv⟩ := LoopInv_runChunks_done LoopInv_init hd
  exact ⟨evsL, r, he, by simpa using hinv⟩

theorem runChunks_cons_done {st : StreamState} {c : BackendChunk}
    (h : (processChunk st c).2.2 = true) (rest : List BackendChunk) :
    runChunks st (c :: rest) = ((processChunk st c).1, (processChunk st c).2.1, true) := by
  rw [runChunks_cons, if_pos h]

theorem runChunks_cons_not_done {st : StreamState} {c : BackendChunk}
    (h : (processChunk st c).2.2 = false) (rest : List BackendChunk) :
    runChunks st (c :: rest) =
      ((runChunks (processChunk st c).1 rest).1,
       (processChunk st c).2.1 ++ (runChunks (processChunk st c).1 rest).2.1,
       (runChunks (processChunk st c).1 rest).2.2) := by
  rw [runChunks_cons, h]
  rw [if_neg Bool.false_ne_true]


/-! ## Claim theorems for the streaming transcoder -/

/-- **C1** (code bug): the claimed exactly-one termination is the spec's
intent, but the source's except handler (lines 494–507) has no return and
falls through to the post-loop closing code (lines 509–520) on the unchanged
state.  On the failing input — one text chunk followed by a backend fault
before any finish reason — the emitted sequence carries the
content_block_stop / message_delta(end_turn) / message_stop triple twice:
the second content_block_stop closes no open block and three events follow
the first message_stop, so message_stop occurs twice. -/
theorem claim_c1_double_termination :
    _stream_anthropic_sse [textChunk "Hi"] true =
      [SSEEvent.message_start, SSEEvent.ping,
       SSEEvent.content_block_start 0 ContentBlockInit.text,
       SSEEvent.content_block_delta 0 (DeltaPayload.text_delta "Hi"),
       SSEEvent.content_block_stop 0,
       SSEEvent.message_delta "end_turn" 1, SSEEvent.message_stop,
       SSEEvent.content_block_stop 0,
       SSEEvent.message_delta "end_turn" 1, SSEEvent.message_stop] ∧
    ((_stream_anthropic_sse [textChunk "Hi"] true).filter
        (fun e => decide (e = SSEEvent.message_stop))).length = 2 := by
  decide

/-- The backend chunk sequence refuting claim C2 as stated: a tool-call
fragment at backend index 0, an interleaved text chunk (which closes the tool
block and opens a text block), then another argument fragment for backend
index 0 — whose input_json_delta is emitted after block 0's stop. -/
def c2ChunkSeq : List BackendChunk :=
  [toolChunk 0 (some "t1") (some "f") (some "a"),
   textChunk "hi",
   toolChunk 0 none none (some "b")]

/-- **C2 counterexample**: the claim as stated — every content_block_delta for
index i emitted after the start of i and before the stop of i — fails on
`c2ChunkSeq`: the final input_json_delta is tagged with block index 0 but
emitted after content_block_stop 0. -/
theorem claim_c2_counterexample :
    deltaDisciplineScan [] [] (_stream_anthropic_sse c2ChunkSeq false) = false := by
  decide

/-- **C2 (amended)**: every content_block_delta is emitted after the
content_block_start of its index, and every text delta is emitted before the
content_block_stop of its index; an input_json_delta for an already
registered tool accumulator may however be emitted after that block's stop
when chunks opening another block arrive between two fragments of the same
backend tool-call index. -/
theorem claim_c2_delta_after_start (chunks : List BackendChunk) (fault : Bool) :
    dasScan [] (_stream_anthropic_sse chunks fault) = true ∧
    tbsScan [] (_stream_anthropic_sse chunks fault) = true := by
  rw [stream_eq]
  cases hd : (runChunks initState chunks).2.2 with
  | false =>
    have hinv := stream_loopInv_not_done hd
    rw [if_neg Bool.false_ne_true]
    have hdasTail : ∀ S : List Nat,
        dasScan S
          ((if fault then closingTail (runChunks initState chunks).1 "end_turn"
            else []) ++
           closingTail (runChunks initState chunks).1 "end_turn") = true := by
      intro S
      cases fault <;> simp [dasScan_append, closingTail_dasScan, dasScan]
    have htbsTail : ∀ S : List Nat,
        tbsScan S
          ((if fault then closingTail (runChunks initState chunks).1 "end_turn"
            else []) ++
           closingTail (runChunks initState chunks).1 "end_turn") = true := by
      intro S
      cases fault <;> simp [tbsScan_append, closingTail_tbsScan, tbsScan]
    constructor
    · show dasScan [] ((runChunks initState chunks).2.1 ++ _) = true
      rw [dasScan_append, hinv.das, hdasTail]
      rfl
    · show tbsScan [] ((runChunks initState chunks).2.1 ++ _) = true
      rw [tbsScan_append, hinv.tbs, htbsTail]
      rfl
  | true =>
    obtain ⟨evsL, r, he, hinv⟩ := stream_loopInv_done hd
    rw [if_pos rfl, List.append_nil, he]
    constructor
    · show dasScan [] (evsL ++ _) = true
      rw [dasScan_append, hinv.das, closingTail_dasScan]
      rfl
    · show tbsScan [] (evsL ++ _) = true
      rw [tbsScan_append, hinv.tbs, closingTail_tbsScan]
      rfl

/-- **C4**: the indices of the content_block_start events form an initial
segment of the naturals in order (they start at 0, increase strictly, and are
never reused); no content_block_start is emitted while a previously started
block has not yet had its content_block_stop emitted (the open-index scan
from no-open-block succeeds, ending with no block open — the duplicated
fault-path stop closes no open block and is tolerated as a stray stop, which
does not violate the start-side discipline the claim states); and in the
concrete two-tool-call scenario two tool_use blocks open at indices 0 and 1,
each closed before the next opens, with final stop reason tool_use. -/
theorem claim_c4_block_indices (chunks : List BackendChunk) (fault : Bool) :
    (∃ n, startIndices (_stream_anthropic_sse chunks fault) = List.range n) ∧
    openIdxScan none (_stream_anthropic_sse chunks fault) = some none ∧
    _stream_anthropic_sse
      [toolChunk 0 (some "t1") (some "f") none, toolChunk 0 none none (some "a"),
       toolChunk 1 (some "t2") (some "g") none, toolChunk 1 none none (some "b"),
       finishChunk "tool_calls"] false =
      [SSEEvent.message_start, SSEEvent.ping,
       SSEEvent.content_block_start 0 (ContentBlockInit.tool_use "t1" "f"),
       SSEEvent.content_block_delta 0 (DeltaPayload.input_json_delta "a"),
       SSEEvent.content_block_stop 0,
       SSEEvent.content_block_start 1 (ContentBlockInit.tool_use "t2" "g"),
       SSEEvent.content_block_delta 1 (DeltaPayload.input_json_delta "b"),
       SSEEvent.content_block_stop 1,
       SSEEvent.message_delta "tool_use" 0,
       SSEEvent.message_stop] := by
  refine ⟨?_, ?_, by decide⟩
  · rw [stream_eq]
    cases hd : (runChunks initState chunks).2.2 with
    | false =>
      have hinv := stream_loopInv_not_done hd
      rw [if_neg Bool.false_ne_true]
      refine ⟨nextStartIndex (runChunks initState chunks).1, ?_⟩
      show startIndices ((runChunks initState chunks).2.1 ++ _) = _
      rw [startIndices_append, hinv.starts_range]
      have htail : startIndices
          ((if fault then closingTail (runChunks initState chunks).1 "end_turn"
            else []) ++
           closingTail (runChunks initState chunks).1 "end_turn") = [] := by
        cases fault
        · rw [if_neg Bool.false_ne_true, List.nil_append, closingTail_startIndices]
        · rw [if_pos rfl, startIndices_append, closingTail_startIndices]
          rfl
      rw [htail, List.append_nil]
    | true =>
      obtain ⟨evsL, r, he, hinv⟩ := stream_loopInv_done hd
      rw [if_pos rfl, List.append_nil, he]
      refine ⟨nextStartIndex (runChunks initState chunks).1, ?_⟩
      show startIndices (evsL ++ _) = _
      rw [startIndices_append, hinv.starts_range, closingTail_startIndices,
          List.append_nil]
  · rw [stream_eq]
    cases hd : (runChunks initState chunks).2.2 with
    | false =>
      have hinv := stream_loopInv_not_done hd
      rw [if_neg Bool.false_ne_true]
      show openIdxScan none ((runChunks initState chunks).2.1 ++ _) = some none
      rw [openIdxScan_append, hinv.open_idx]
      cases fault <;>
        simp [openIdxScan_append, closingTail_openIdx_open, closingTail_openIdx_none]
    | true =>
      obtain ⟨evsL, r, he, hinv⟩ := stream_loopInv_done hd
      rw [if_pos rfl, List.append_nil, he]
      show openIdxScan none (evsL ++ _) = some none
      rw [openIdxScan_append, hinv.open_idx]
      simp [closingTail_openIdx_open]

/-- **C3**: the canonical two-text-chunk stream produces exactly the expected
event sequence, with output_tokens 2, and any chunks after the finish reason
are never consumed. -/
theorem claim_c3_text_stream (extra : List BackendChunk) (fault : Bool) :
    _stream_anthropic_sse
        (textChunk "Hi" :: textChunk " there" :: finishChunk "stop" :: extra) fault =
      [SSEEvent.message_start, SSEEvent.ping,
       SSEEvent.content_block_start 0 ContentBlockInit.text,
       SSEEvent.content_block_delta 0 (DeltaPayload.text_delta "Hi"),
       SSEEvent.content_block_delta 0 (DeltaPayload.text_delta " there"),
       SSEEvent.content_block_stop 0,
       SSEEvent.message_delta "end_turn" 2,
       SSEEvent.message_stop] := by
  have hrun : runChunks initState
      (textChunk "Hi" :: textChunk " there" :: finishChunk "stop" :: extra) =
      (⟨2, 0, some BlockKind.text, []⟩,
       [SSEEvent.content_block_start 0 ContentBlockInit.text,
        SSEEvent.content_block_delta 0 (DeltaPayload.text_delta "Hi"),
        SSEEvent.content_block_delta 0 (DeltaPayload.text_delta " there"),
        SSEEvent.content_block_stop 0,
        SSEEvent.message_delta "end_turn" 2,
        SSEEvent.message_stop], true) := by
    rw [runChunks_cons_not_done (by decide), runChunks_cons_not_done (by decide),
        runChunks_cons_done (by decide)]
    rfl
  rw [stream_eq, hrun]
  rfl


/-! ## Claim theorems for the request/response converters and handlers -/

/-- The (tool_use_id, content) pairs of the tool_result blocks of a content
list, in order. -/
def toolResultBlocks : List ContentBlock → List (String × ResultContent)
  | [] => []
  | ContentBlock.tool_result tuid rc :: rest => (tuid, rc) :: toolResultBlocks rest
  | _ :: rest => toolResultBlocks rest

theorem partitionBlocks_tool_results (bs : List ContentBlock) :
    (partitionBlocks bs).tool_results =
      (toolResultBlocks bs).map
        (fun pr => (⟨"tool", some (flattenResultContent pr.2), [], some pr.1⟩ : OAIMessage)) := by
  induction bs with
  | nil => rfl
  | cons b rest ih => cases b <;> simp [partitionBlocks, toolResultBlocks, ih]

/-- Claim C5 exactly as stated: for a block-list message containing
tool_result blocks that does not trigger the assistant tool_calls branch, the
role-preserving text message precedes the tool messages, and is present only
if the newline-joined text is a NON-EMPTY string. -/
def claimC5Statement : Prop :=
  ∀ (role : String) (bs : List ContentBlock),
    (partitionBlocks bs).tool_results ≠ [] →
    ¬(role = "assistant" ∧ (partitionBlocks bs).tool_calls ≠ []) →
    translateOneMessage ⟨role, MsgContent.blocks bs⟩ =
      (if String.intercalate "\n" (partitionBlocks bs).text_parts ≠ ""
       then [OAIMessage.plain role (String.intercalate "\n" (partitionBlocks bs).text_parts)]
       else [])
      ++ (partitionBlocks bs).tool_results

/-- **C5 counterexample**: a message whose only text block is the empty
string still yields a leading role-preserving message with empty content —
the source gates the text message on the text-parts LIST being non-empty,
not on the joined text being a non-empty string. -/
theorem claim_c5_counterexample : ¬claimC5Statement := by
  intro h
  have h2 := h "user"
      [ContentBlock.text "", ContentBlock.tool_result "T1" (ResultContent.str "ok")]
      (by decide) (by decide)
  revert h2
  decide

/-- **C5 (amended)**: for every block-list message containing tool_result
blocks that does not trigger the assistant tool_calls branch, the translation
is the role-preserving newline-joined text message — present exactly when at
least one text block is present (even one with empty text) — followed by one
tool-role backend message per tool_result block in order, each carrying the
referenced tool_use id and the flattened result content; including the two
concrete instances claimed. -/
theorem claim_c5_tool_results (role : String) (bs : List ContentBlock)
    (hres : (partitionBlocks bs).tool_results ≠ [])
    (hnot : ¬(role = "assistant" ∧ (partitionBlocks bs).tool_calls ≠ [])) :
    (translateOneMessage ⟨role, MsgContent.blocks bs⟩ =
      (if (partitionBlocks bs).text_parts ≠ []
       then [OAIMessage.plain role (String.intercalate "\n" (partitionBlocks bs).text_parts)]
       else [])
      ++ (partitionBlocks bs).tool_results) ∧
    (partitionBlocks bs).tool_results =
      (toolResultBlocks bs).map
        (fun pr => (⟨"tool", some (flattenResultContent pr.2), [], some pr.1⟩ : OAIMessage)) ∧
    _translate_messages_to_openai
        [⟨"user", MsgContent.blocks [ContentBlock.tool_result "T1" (ResultContent.str "ok")]⟩] =
      [⟨"tool", some "ok", [], some "T1"⟩] ∧
    _translate_messages_to_openai
        [⟨"user", MsgContent.blocks [ContentBlock.text "hello",
            ContentBlock.tool_result "T1" (ResultContent.str "ok")]⟩] =
      [OAIMessage.plain "user" "hello", ⟨"tool", some "ok", [], some "T1"⟩] := by
  refine ⟨?_, partitionBlocks_tool_results bs, by decide, by decide⟩
  simp only [translateOneMessage]
  rw [if_neg hnot, if_pos hres]

def c5Blocks : List ContentBlock :=
  [ContentBlock.text "hello", ContentBlock.tool_result "T1" (ResultContent.str "ok")]

/-- Witness for C5 (amended) at a concrete mixed text/tool_result message. -/
theorem claim_c5_witness :
    (partitionBlocks c5Blocks).tool_results ≠ [] ∧
    ¬("user" = "assistant" ∧ (partitionBlocks c5Blocks).tool_calls ≠ []) ∧
    translateOneMessage ⟨"user", MsgContent.blocks c5Blocks⟩ =
      (if (partitionBlocks c5Blocks).text_parts ≠ []
       then [OAIMessage.plain "user"
               (String.intercalate "\n" (partitionBlocks c5Blocks).text_parts)]
       else [])
      ++ (partitionBlocks c5Blocks).tool_results :=
  ⟨by decide, by decide,
   (claim_c5_tool_results "user" c5Blocks (by decide) (by decide)).1⟩

/-- **C6**: for every inbound request — including one with no system field —
the backend system message content is the compatibility preamble concatenated
with the translated user-supplied system text, in that order. -/
theorem claim_c6_preamble (system : Option SystemField) :
    systemMessageContent system =
      _COMPAT_PREAMBLE ++
        (match system with
         | none => ""
         | some s => _translate_system_prompt s) := by
  cases system with
  | none => rfl
  | some s =>
    cases s with
    | plain str =>
      by_cases h : str = ""
      · subst h; rfl
      · simp [systemMessageContent, systemTruthy, h]
    | blocks bs =>
      cases bs with
      | nil => rfl
      | cons b rest =>
        simp [systemMessageContent, systemTruthy]

def c7Tool : ToolDef := ⟨"Bash", "run a shell command", JValue.obj []⟩

/-- **C7**: the backend temperature equals the inbound temperature unless
translated tools are present and the inbound temperature exceeds 0.6, in
which case it is exactly 0.6; with tools and 0.9 the result is 0.6, with
tools and 0.4 it stays 0.4, with no tools and 0.9 it stays 0.9. -/
theorem claim_c7_temperature_clamp (tools : Option (List ToolDef)) (temperature : Option ℚ) :
    (backendTemperature tools temperature =
      if (_translate_tools_to_openai tools).isSome ∧ temperature.getD 1 > 0.6 then 0.6
      else temperature.getD 1) ∧
    backendTemperature (some [c7Tool]) (some 0.9) = 0.6 ∧
    backendTemperature (some [c7Tool]) (some 0.4) = 0.4 ∧
    backendTemperature none (some 0.9) = 0.9 := by
  refine ⟨?_, ?_, ?_, ?_⟩
  · cases tools with
    | none => simp [backendTemperature, _translate_tools_to_openai, toolsTruthy]
    | some ts =>
      cases ts with
      | nil => simp [backendTemperature, _translate_tools_to_openai, toolsTruthy, List.isEmpty]
      | cons t rest =>
        simp [backendTemperature, _translate_tools_to_openai, toolsTruthy, List.isEmpty]
  · norm_num [backendTemperature, _translate_tools_to_openai, toolsTruthy, List.isEmpty]
  · norm_num [backendTemperature, _translate_tools_to_openai, toolsTruthy, List.isEmpty]
  · norm_num [backendTemperature, _translate_tools_to_openai, toolsTruthy]

/-- The character total claimed by C8, following the claim's words: the
system text flattened per the system-prompt translation rules (newline
joins included), plus per message either the string content length or the
text length of every text block plus the serialized length of every
tool-input object. -/
def claimC8Total (body : Body) : Nat :=
  (match body.system with
   | none => 0
   | some s => (_translate_system_prompt s).length) +
  (body.messages.map fun m =>
    match m.content with
    | MsgContent.str s => s.length
    | MsgContent.blocks bs =>
      (bs.map fun b =>
        match b with
        | ContentBlock.text t => t.length
        | ContentBlock.tool_use _ _ input => (dumps input).length
        | _ => 0).sum).sum

/-- The estimate claimed by C8. -/
def claimC8Estimate (body : Body) : Nat := Nat.max 1 (claimC8Total body / 4)

/-- The code's actual character total (amended C8): system block lists are
summed without newline separators, counting the text of every dict block and
skipping plain-string elements; every dict block of a message's block list
contributes its text length plus the serialized length of its input value,
the missing-input default serializing to the two-character string. -/
def amendedC8Total (body : Body) : Nat :=
  (match body.system with
   | none => 0
   | some (SystemField.plain s) => s.length
   | some (SystemField.blocks bs) => (bs.map sysBlockChars).sum) +
  (body.messages.map fun m =>
    match m.content with
    | MsgContent.str s => s.length
    | MsgContent.blocks bs => (bs.map msgBlockChars).sum).sum

def c8Body : Body :=
  ⟨some (SystemField.blocks
     [SysBlock.textBlock "aa", SysBlock.textBlock "aa", SysBlock.textBlock "aa"]), []⟩

/-- **C8 counterexample**: on a system list of three two-character text
blocks the claimed formula (which counts the two joining newlines) gives 2,
while the code (which sums the block texts with no separators) gives 1. -/
theorem claim_c8_counterexample :
    _count_tokens_estimate c8Body ≠ claimC8Estimate c8Body ∧
    _count_tokens_estimate c8Body = 1 ∧ claimC8Estimate c8Body = 2 := by
  decide

/-- **C8 (amended)**: the estimate equals the floor of the code's character
total divided by 4 with a minimum of 1, is monotonically non-decreasing in
that total, and a body with only a system string of length 4 yields 1. -/
theorem claim_c8_estimate :
    (∀ body : Body, _count_tokens_estimate body = Nat.max 1 (amendedC8Total body / 4)) ∧
    (∀ body body2 : Body, amendedC8Total body ≤ amendedC8Total body2 →
        _count_tokens_estimate body ≤ _count_tokens_estimate body2) ∧
    _count_tokens_estimate ⟨some (SystemField.plain "abcd"), []⟩ = 1 := by
  have heq : ∀ body : Body,
      _count_tokens_estimate body = Nat.max 1 (amendedC8Total body / 4) := by
    intro body
    rfl
  refine ⟨heq, ?_, by decide⟩
  intro body body2 h
  rw [heq body, heq body2]
  exact max_le_max (le_refl 1) (Nat.div_le_div_right h)

/-- Witness for C8 (amended): monotonicity applied at two concrete bodies. -/
theorem claim_c8_witness :
    amendedC8Total (⟨some (SystemField.plain "ab"), []⟩ : Body) ≤
      amendedC8Total (⟨some (SystemField.plain "abcdefgh"), []⟩ : Body) ∧
    _count_tokens_estimate ⟨some (SystemField.plain "ab"), []⟩ ≤
      _count_tokens_estimate ⟨some (SystemField.plain "abcdefgh"), []⟩ :=
  ⟨by decide, claim_c8_estimate.2.1 _ _ (by decide)⟩

/-- **C9**: when the litellm import failed, `proxy_messages` replies 501
not_implemented for every environment — whatever the parse outcome or
configuration, so before body parsing or configuration lookup can matter —
while `proxy_count_tokens` (which takes no part of the litellm state) still
answers with the estimate for every successfully parsed body. -/
theorem claim_c9_litellm_unavailable :
    (∀ env : Env, env.litellmAvailable = false →
      proxy_messages env =
        HandlerResponse.jsonError 501 "not_implemented"
          "litellm is not installed. Run: pip install litellm") ∧
    (∀ parsed body, parsed = ParsedBody.ok body →
      proxy_count_tokens parsed =
        HandlerResponse.tokenCount (_count_tokens_estimate (bodyForCount body))) := by
  constructor
  · intro env h
    simp [proxy_messages, h]
  · intro parsed body h
    subst h
    rfl

def sampleBody : RequestBody := ⟨none, some (SystemField.plain "abcd"), [], none, none, none, false⟩

def sampleSettings : Settings := ⟨some "ionos", some "https://base.example", some "tok", none⟩

def sampleProviders : List (String × ProviderInfo) :=
  [("ionos", ⟨"https://api.example", "llama"⟩)]

def envNoLitellm : Env :=
  ⟨false, ParsedBody.malformed, sampleSettings, sampleProviders, none, [], false, ⟨0⟩⟩

/-- Witness for C9: an environment with litellm missing and a malformed body
still gets the 501 reply; count_tokens answers 1 on the length-4 system. -/
theorem claim_c9_witness :
    envNoLitellm.litellmAvailable = false ∧
    proxy_messages envNoLitellm =
      HandlerResponse.jsonError 501 "not_implemented"
        "litellm is not installed. Run: pip install litellm" ∧
    proxy_count_tokens (ParsedBody.ok sampleBody) = HandlerResponse.tokenCount 1 :=
  ⟨rfl, claim_c9_litellm_unavailable.1 envNoLitellm rfl,
   by rw [claim_c9_litellm_unavailable.2 (ParsedBody.ok sampleBody) sampleBody rfl]; rfl⟩

/-- **C10**: for a streaming request, a fault raised by the backend call
itself yields the 502 JSON error reply — with the authentication rewrite when
the fault text contains "AuthenticationError" or "401" — and never an SSE
response; the SSE response is produced exactly when the call returned
successfully. -/
theorem claim_c10_prestream_fault (env : Env) (body : RequestBody) (p : ProviderInfo)
    (hlit : env.litellmAvailable = true)
    (hparse : env.parsed = ParsedBody.ok body)
    (hstream : body.stream = true)
    (hprov : lookupProvider env.providers (env.settings.api_provider.getD "claude") = some p)
    (hbase : orDefault env.settings.api_base_url p.base_url ≠ "") :
    (∀ e, env.callFault = some e →
      proxy_messages env =
        HandlerResponse.jsonError 502 "proxy_error"
          (if containsSub e "AuthenticationError" || containsSub e "401" then
            "Authentication failed with " ++ env.settings.api_provider.getD "claude" ++
              ". Check your API key."
           else e)) ∧
    (env.callFault = none →
      proxy_messages env =
        HandlerResponse.sse (_stream_anthropic_sse env.streamChunks env.streamRaises)) := by
  constructor
  · intro e he
    simp [proxy_messages, hlit, hparse, hprov, hbase, he]
  · intro he
    simp [proxy_messages, hlit, hparse, hprov, hbase, he, hstream]

def streamBody : RequestBody := ⟨none, none, [], none, none, none, true⟩

def envCallFault : Env :=
  ⟨true, ParsedBody.ok streamBody, sampleSettings, sampleProviders,
   some "AuthenticationError: bad key", [], false, ⟨0⟩⟩

def envCallOk : Env :=
  ⟨true, ParsedBody.ok streamBody, sampleSettings, sampleProviders,
   none, [textChunk "Hi"], true, ⟨0⟩⟩

/-- Witness for C10: a faulting call gets the sanitized 502 reply; a
successful call gets the SSE response. -/
theorem claim_c10_witness :
    proxy_messages envCallFault =
      HandlerResponse.jsonError 502 "proxy_error"
        "Authentication failed with ionos. Check your API key." ∧
    proxy_messages envCallOk =
      HandlerResponse.sse (_stream_anthropic_sse [textChunk "Hi"] true) := by
  constructor
  · have h := (claim_c10_prestream_fault envCallFault streamBody
        ⟨"https://api.example", "llama"⟩ rfl rfl rfl rfl (by decide)).1
        "AuthenticationError: bad key" rfl
    rw [h]
    rfl
  · exact (claim_c10_prestream_fault envCallOk streamBody
      ⟨"https://api.example", "llama"⟩ rfl rfl rfl rfl (by decide)).2 rfl

end Proxy
